import Mathlib

/-!
# Verification of `stan/services/optimize/optimize.hpp`

Shallow embedding of the point-estimation driver
`stan::services::optimize::optimize` (the only source file of the
repository) and proofs about it.

Modelling choices:

* C++ `double` values are modelled by `FP`: exact rationals for finite
  values plus the IEEE special values `+inf`, `-inf`, `NaN`.  The driver's
  arithmetic on doubles (`lp * 1.1`, `lp - lastlp`, `std::fabs`, division,
  `> 1e-8`) is translated operation by operation with IEEE semantics for
  the special values (inf - inf = NaN, NaN compares false, x/0 with x > 0
  gives +inf, ...).  Finite arithmetic is exact (rounding and overflow of
  finite intermediate results are not modelled); the claims under
  verification turn on signs and special values, which exact rational
  arithmetic reproduces faithfully.  `ℚ` has no negative zero; `0` plays
  the role of `+0.0`, which matches the one place a zero denominator can
  arise in the source (`std::fabs(lp)`, always a positive zero).
* The external collaborators (the model's `log_prob`, the free function
  `stan::optimization::newton_step`, the `BFGSLineSearch` stepper) are
  parameters of the embedding, exactly as wide as the interface the driver
  consumes.  A throwing `log_prob` is an `Except`; its `std::stringstream`
  side channel is the `String` component of a successful result.
* The output sinks (`output`, `info`, `err`) and the interrupt hook are
  modelled by an explicit `Effects` trace threaded through the run, one
  field per sink plus counters for the calls into the external
  collaborators.  `info` messages are recorded as a structured `InfoMsg`
  (one constructor per `info(...)` call site, carrying the data the C++
  code formats into the string).
* Both iteration loops (`while` in the Newton branch, the quasi-Newton
  driver loop) have no syntactic bound in the source, so they are embedded
  with explicit fuel; `none` means the fuel ran out before the loop
  exited.  Statements about completed runs are conditioned on the run
  returning `some`.
-/

set_option autoImplicit false

namespace Stan

/-- A C++ `double` as used by the driver: an exact rational for finite
values, plus the IEEE special values.  See the module docstring for the
fidelity discussion. -/
inductive FP where
  | finite (x : ℚ)
  | posInf
  | negInf
  | nan
deriving DecidableEq, Repr

namespace FP

/-- IEEE subtraction restricted to the special-value structure:
`inf - inf = NaN`, infinities absorb finite operands, NaN propagates. -/
def sub : FP → FP → FP
  | nan, _ => nan
  | _, nan => nan
  | finite a, finite b => finite (a - b)
  | finite _, posInf => negInf
  | finite _, negInf => posInf
  | posInf, finite _ => posInf
  | posInf, posInf => nan
  | posInf, negInf => posInf
  | negInf, finite _ => negInf
  | negInf, posInf => negInf
  | negInf, negInf => nan

/-- Multiplication by a finite rational constant (the source multiplies
`lp` by the literal `1.1`): `±inf * c` follows the sign of `c`,
`±inf * 0 = NaN`, NaN propagates. -/
def mulc : FP → ℚ → FP
  | nan, _ => nan
  | finite x, c => finite (x * c)
  | posInf, c => if 0 < c then posInf else if c < 0 then negInf else nan
  | negInf, c => if 0 < c then negInf else if c < 0 then posInf else nan

/-- `std::fabs`: absolute value, `|±inf| = +inf`, NaN propagates. -/
def fabs : FP → FP
  | nan => nan
  | finite x => finite |x|
  | posInf => posInf
  | negInf => posInf

/-- IEEE division restricted to the special-value structure.  A zero
denominator behaves as `+0.0` (`ℚ` has no signed zero; the only zero
denominator the driver can produce is `std::fabs(lp)`): `x/0` is a signed
infinity for `x ≠ 0` and `0/0 = NaN`; `finite/±inf = 0`; `inf/inf = NaN`;
NaN propagates. -/
def div : FP → FP → FP
  | nan, _ => nan
  | _, nan => nan
  | finite a, finite b =>
      if b = 0 then
        if a = 0 then nan else if 0 < a then posInf else negInf
      else finite (a / b)
  | finite _, posInf => finite 0
  | finite _, negInf => finite 0
  | posInf, finite b => if 0 ≤ b then posInf else negInf
  | negInf, finite b => if 0 ≤ b then negInf else posInf
  | posInf, posInf => nan
  | posInf, negInf => nan
  | negInf, posInf => nan
  | negInf, negInf => nan

/-- IEEE comparison of a double against a finite rational constant:
`NaN > c` is `false`, `+inf > c` is `true`, `-inf > c` is `false`. -/
def gt : FP → ℚ → Bool
  | nan, _ => false
  | finite x, c => decide (c < x)
  | posInf, _ => true
  | negInf, _ => false

end FP

/-- The uniform status codes of `stan::services::error_codes` as the spec
names them (`OK` = `error_codes::OK`, `USAGE_ERROR` = `error_codes::USAGE`;
the remaining constructors are the terminal outcomes a quasi-Newton
stepper can report, passed through verbatim by the driver). -/
inductive TerminationStatus where
  | OK
  | MAX_ITERATIONS
  | GRADIENT_CONVERGED
  | OBJECTIVE_CONVERGED
  | PARAM_CONVERGED
  | LINE_SEARCH_FAILED
  | INTERRUPTED
  | USAGE_ERROR
deriving DecidableEq, Repr

/-- One message to the informational sink, one constructor per
`info(...)` call site of the driver, carrying the data the C++ code
formats into the string. -/
inductive InfoMsg where
  /-- Forwarding of a non-empty message the model wrote during the
  initial `log_prob` evaluation (optimize.hpp line 65). -/
  | modelMsg (s : String)
  /-- "initial log joint probability = lp" (line 73). -/
  | initialLp (lp : FP)
  /-- "(lp - lastlp) / lp > 1e-8: v" printed before the first check of the
  Newton loop (line 86). -/
  | firstCheck (v : FP)
  /-- "Iteration m. Log joint probability = lp. Improved by d." printed
  once per Newton iteration (lines 96-99); `m` is the 1-based iteration
  number. -/
  | iteration (m : ℕ) (lp improved : FP)
  /-- Periodic progress line of the quasi-Newton driver at iteration `k`
  (do_bfgs_optimize, modelled from the spec). -/
  | progress (k : ℕ) (lp : FP)
deriving DecidableEq, Repr

/-- The observable trace of one `optimize` run: everything written to the
three sinks, in order, plus counters for the interrupt hook and for the
calls the driver makes into the external collaborators.
`logProbEvals` counts the driver's own direct `model.log_prob` calls
(line 63); evaluations performed internally by `newton_step` or by the
quasi-Newton stepper belong to those external collaborators. -/
structure Effects where
  /-- Header rows written to the output sink (`output(names)`, line 53). -/
  headers : List (List String)
  /-- Iterate rows written to the output sink by `write_iteration`, as
  (iteration index, log density, parameters). -/
  records : List (ℕ × FP × List ℚ)
  /-- Messages to the informational sink. -/
  infoMsgs : List InfoMsg
  /-- Messages to the error sink (`write_error_msg`). -/
  errMsgs : List String
  /-- Number of invocations of the caller's interrupt hook. -/
  interrupts : ℕ
  /-- Number of direct `model.log_prob` calls made by the driver. -/
  logProbEvals : ℕ
  /-- Number of `newton_step` calls. -/
  newtonSteps : ℕ
  /-- Number of stepper `advance` calls made by the quasi-Newton driver. -/
  advanceCalls : ℕ
deriving DecidableEq, Repr

namespace Effects

def pushRecord (e : Effects) (m : ℕ) (lp : FP) (p : List ℚ) : Effects :=
  { e with records := e.records ++ [(m, lp, p)] }

def pushInfo (e : Effects) (msg : InfoMsg) : Effects :=
  { e with infoMsgs := e.infoMsgs ++ [msg] }

def pushErr (e : Effects) (msg : String) : Effects :=
  { e with errMsgs := e.errMsgs ++ [msg] }

end Effects

/-- The slice of the model interface the driver consumes, plus the
`newton_step` external collaborator (a free function of the model in C++,
bundled here).  `logProb p = .error e` models `log_prob` throwing an
exception with message `e`; `.ok (v, s)` models it returning `v` having
written `s` to the message stream. -/
structure Model where
  logProb : List ℚ → Except String (FP × String)
  /-- Names appended by `model.constrained_param_names(names, true, true)`. -/
  constrainedParamNames : List String
  /-- `stan::optimization::newton_step(model, cont_vector, disc_vector)`:
  updates the parameter vector in place and returns the new log density. -/
  newtonStep : List ℚ → List ℚ × FP

/-- The convergence/line-search options the driver binds into the
quasi-Newton stepper before running it (`_ls_opts.alpha0`, the five
`_conv_opts` tolerances, `_conv_opts.maxIts`, and for L-BFGS only the
history size). -/
structure QNConfig where
  alpha0 : ℚ
  tolAbsF : ℚ
  tolRelF : ℚ
  tolAbsGrad : ℚ
  tolRelGrad : ℚ
  tolAbsX : ℚ
  maxIts : ℤ
  historySize : Option ℤ
deriving DecidableEq, Repr

/-- The quasi-Newton stepper (`BFGSLineSearch`) as the black box the
driver sees.  `ctorMsg` is whatever the stepper writes into the
`std::stringstream` buffer handed to its constructor.  `advance cfg k` is
the result of the `k`-th advance (`k = 1, 2, ...`) under bound options
`cfg`: a terminal status (`none` = continue iterating), the updated
parameter vector, and the current log density.  The driver feeds nothing
back into the stepper between advances, so a function of the call index
is a faithful model of the stateful C++ object. -/
structure QNStepper where
  ctorMsg : String
  advance : QNConfig → ℕ → Option TerminationStatus × List ℚ × FP

/-- The configuration bundle `optimize_args` as the driver reads it: the
argument-tree lookups `arg("algorithm")`, `arg("iter")`,
`arg("save_iterations")` and the per-algorithm subtree
(`algo->arg("bfgs")->arg(...)` / `algo->arg("lbfgs")->arg(...)`; both
subtrees hold the same tolerance fields, modelled once). -/
structure Config where
  algorithm : String
  iter : ℤ
  saveIterations : Bool
  initAlpha : ℚ
  tolObj : ℚ
  tolRelObj : ℚ
  tolGrad : ℚ
  tolRelGrad : ℚ
  tolParam : ℚ
  historySize : ℤ
deriving DecidableEq, Repr

/-- The result of one `optimize` run: the returned status code, the
effect trace, the caller's `cont_params` vector as it stands after the
call (passed by reference in C++), and the driver's local working vector
`cont_vector` at return. -/
structure RunResult where
  status : TerminationStatus
  eff : Effects
  contParams : List ℚ
  finalIterate : List ℚ
deriving DecidableEq, Repr

/-- The Newton loop guard `(lp - lastlp) / std::fabs(lp) > 1e-8`
(optimize.hpp line 89). -/
def newtonCond (lp lastlp : FP) : Bool :=
  ((lp.sub lastlp).div lp.fabs).gt (1 / 100000000)

/-- State of the Newton `while` loop: the two log densities, the working
parameter vector, and the effect trace.  The C++ iteration counter `m`
coincides with `eff.newtonSteps` (both start at 0 and are incremented
together once per iteration). -/
structure NewtonSt where
  lp : FP
  lastlp : FP
  params : List ℚ
  eff : Effects
deriving DecidableEq, Repr

/-- One body of the Newton `while` loop (optimize.hpp lines 90-107):
save `lastlp`, take a `newton_step`, report the iteration, bump the
counter, optionally record the iterate. -/
def newtonBody (model : Model) (save : Bool) (st : NewtonSt) : NewtonSt :=
  let lastlp := st.lp
  let step := model.newtonStep st.params
  let params := step.1
  let lp := step.2
  let m := st.eff.newtonSteps + 1
  let eff := { st.eff with newtonSteps := m }
  let eff := eff.pushInfo (.iteration m lp (lp.sub lastlp))
  let eff := if save then eff.pushRecord m lp params else eff
  ⟨lp, lastlp, params, eff⟩

/-- The Newton `while` loop (optimize.hpp lines 89-108) with explicit
fuel; `none` means the guard still held when the fuel ran out. -/
def newtonLoop (model : Model) (save : Bool) : ℕ → NewtonSt → Option NewtonSt
  | 0, st => if newtonCond st.lp st.lastlp then none else some st
  | fuel + 1, st =>
      if newtonCond st.lp st.lastlp then
        newtonLoop model save fuel (newtonBody model save st)
      else some st

/-- The guarded initial evaluation of the Newton branch (optimize.hpp
lines 60-69): call `log_prob` inside `try`; on success forward a
non-empty model message to the informational sink; on an exception write
its message to the error sink and substitute `-inf`. -/
def evalInitial (model : Model) (contVector : List ℚ) (eff : Effects) :
    FP × Effects :=
  match model.logProb contVector with
  | .ok (v, s) =>
      let eff := { eff with logProbEvals := eff.logProbEvals + 1 }
      (v, if s ≠ "" then eff.pushInfo (.modelMsg s) else eff)
  | .error e =>
      let eff := { eff with logProbEvals := eff.logProbEvals + 1 }
      (FP.negInf, eff.pushErr e)

/-- The Newton branch up to the top of the `while` loop (optimize.hpp
lines 60-87): initial evaluation, "initial log joint probability"
message, optional iterate record for the initial point,
`lastlp = lp * 1.1`, and the message printing the first check's value. -/
def newtonEntry (model : Model) (save : Bool) (contVector : List ℚ)
    (eff : Effects) : NewtonSt :=
  let ev := evalInitial model contVector eff
  let lp := ev.1
  let eff := ev.2
  let eff := eff.pushInfo (.initialLp lp)
  let eff := if save then eff.pushRecord 0 lp contVector else eff
  let lastlp := lp.mulc (11 / 10)
  let eff := eff.pushInfo (.firstCheck ((lp.sub lastlp).div lp.fabs))
  ⟨lp, lastlp, contVector, eff⟩

/-- The `algo->value() == "newton"` branch (optimize.hpp lines 57-111):
the entry code, the loop, and `return error_codes::OK`. -/
def newtonBranch (model : Model) (save : Bool)
    (contParams contVector : List ℚ) (eff : Effects) (fuel : ℕ) :
    Option RunResult :=
  match newtonLoop model save fuel (newtonEntry model save contVector eff) with
  | none => none
  | some st => some ⟨.OK, st.eff, contParams, st.params⟩

/-- Modelled from the spec: the per-iteration observable effects of the
`do_bfgs_optimize` loop (§4.3 steps 1-4) — count the stepper advance,
emit a progress line on the refresh cadence (`refresh = 0` disables it),
record the iterate every iteration when recording is enabled, and invoke
the interrupt hook. -/
def qnIterEff (save : Bool) (refresh : ℤ) (k : ℕ) (lp : FP)
    (params : List ℚ) (eff : Effects) : Effects :=
  let eff := { eff with advanceCalls := eff.advanceCalls + 1 }
  let eff :=
    if 0 < refresh ∧ k % refresh.toNat = 0 then
      eff.pushInfo (.progress k lp)
    else eff
  let eff := if save then eff.pushRecord k lp params else eff
  { eff with interrupts := eff.interrupts + 1 }

/-- Modelled from the spec: the iteration loop of `do_bfgs_optimize`
(included from `stan/services/optimize/do_bfgs_optimize.hpp`, which is
not among the provided sources), following §4.3 of the spec: each pass
performs one stepper advance with the effects of `qnIterEff`, returns
`INTERRUPTED` if the interrupt hook signals cancellation, and otherwise
stops exactly when the stepper reports a terminal code, passing that
code through verbatim.  Iteration indices `k` start at 1. -/
def doBfgsOptimize (stepper : QNStepper) (qcfg : QNConfig)
    (interrupt : ℕ → Bool) (save : Bool) (refresh : ℤ) :
    ℕ → ℕ → List ℚ → Effects → Option (TerminationStatus × List ℚ × Effects)
  | 0, _, _, _ => none
  | fuel + 1, k, _, eff =>
      let adv := stepper.advance qcfg k
      let eff := qnIterEff save refresh k adv.2.2 adv.2.1 eff
      if interrupt k then some (.INTERRUPTED, adv.2.1, eff)
      else
        match adv.1 with
        | some ts => some (ts, adv.2.1, eff)
        | none =>
            doBfgsOptimize stepper qcfg interrupt save refresh fuel (k + 1) adv.2.1 eff

/-- The `"bfgs"` / `"lbfgs"` branches (optimize.hpp lines 114-151 and
153-192): construct the stepper, bind the line-search/convergence options
and the iteration cap (plus, for L-BFGS, the history size), then `return
do_bfgs_optimize(...)`.  The flush `if (msg.str().size()) info(msg.str());`
that follows the `return` in the source (lines 149 and 190) is dead code —
control has already left the function — so the stepper's buffered
`ctorMsg` is never forwarded to the informational sink; faithfully to the
C++ control flow, no such emission appears here. -/
def qnBranch (stepper : QNStepper) (qcfg : QNConfig) (interrupt : ℕ → Bool)
    (save : Bool) (refresh : ℤ) (contParams contVector : List ℚ)
    (eff : Effects) (fuel : ℕ) : Option RunResult :=
  match doBfgsOptimize stepper qcfg interrupt save refresh fuel 1 contVector eff with
  | none => none
  | some (ts, params, eff) => some ⟨ts, eff, contParams, params⟩

/-- `stan::services::optimize::optimize` (optimize.hpp lines 21-196).
`refresh` is the separate `int refresh` function parameter; `interrupt`
is `iteration_interrupt` (true = the hook signals cancellation);
`stepper` stands for whichever `BFGSLineSearch` instantiation the taken
branch would construct.  The caller's `cont_params` is copied into the
local working vector `cont_vector` (lines 33-35) and is never written
back.  The header `names` = `"lp__"` followed by the constrained
parameter names is emitted to the output sink once, before dispatch
(lines 50-53).  An unrecognized algorithm falls through every branch to
`error_codes::USAGE` (line 194). -/
def optimize (model : Model) (cfg : Config) (refresh : ℤ)
    (stepper : QNStepper) (interrupt : ℕ → Bool)
    (contParams : List ℚ) (fuel : ℕ) : Option RunResult :=
  let contVector := contParams
  let names := "lp__" :: model.constrainedParamNames
  let eff : Effects := ⟨[names], [], [], [], 0, 0, 0, 0⟩
  if cfg.algorithm = "newton" then
    newtonBranch model cfg.saveIterations contParams contVector eff fuel
  else if cfg.algorithm = "bfgs" then
    qnBranch stepper
      ⟨cfg.initAlpha, cfg.tolObj, cfg.tolRelObj, cfg.tolGrad,
        cfg.tolRelGrad, cfg.tolParam, cfg.iter, none⟩
      interrupt cfg.saveIterations refresh contParams contVector eff fuel
  else if cfg.algorithm = "lbfgs" then
    qnBranch stepper
      ⟨cfg.initAlpha, cfg.tolObj, cfg.tolRelObj, cfg.tolGrad,
        cfg.tolRelGrad, cfg.tolParam, cfg.iter, some cfg.historySize⟩
      interrupt cfg.saveIterations refresh contParams contVector eff fuel
  else
    some ⟨.USAGE_ERROR, eff, contParams, contVector⟩

/-- The initial log density of a Newton run: the value `log_prob` returns,
or `-inf` when it throws (optimize.hpp lines 60-69). -/
def initialLpOf (model : Model) (p : List ℚ) : FP :=
  match model.logProb p with
  | .ok (v, _) => v
  | .error _ => .negInf

/-! ### Concrete fixtures

Small executable instantiations of the external collaborators, used to
evaluate the driver on closed inputs. -/

/-- A one-parameter model whose log density starts at `-4` and whose
`newton_step` jumps to the optimum (log density `-2`) and stays there. -/
def constNegModel : Model :=
  ⟨fun _ => .ok (.finite (-4), ""), ["theta"], fun p => (p, .finite (-2))⟩

/-- A one-parameter model whose initial log density is the positive
value `1`. -/
def constPosModel : Model :=
  ⟨fun _ => .ok (.finite 1, ""), ["theta"], fun p => (p, .finite 5)⟩

/-- A one-parameter model whose `log_prob` throws with message "boom". -/
def throwModel : Model :=
  ⟨fun _ => .error "boom", ["theta"], fun p => (p, .finite (-2))⟩

/-- A stepper that terminates on its first advance with
`GRADIENT_CONVERGED`, leaving the warning text "line search warning" in
its construction-time message buffer. -/
def warnStepper : QNStepper :=
  ⟨"line search warning", fun _ _ => (some .GRADIENT_CONVERGED, [1], .finite (-1))⟩

/-- An interrupt hook that never signals cancellation. -/
def neverInterrupt : ℕ → Bool := fun _ => false

/-- A `newton` configuration bundle with recording disabled. -/
def newtonArgs : Config := ⟨"newton", 2000, false, 1, 1, 1, 1, 1, 1, 5⟩

/-- A `newton` configuration bundle with recording enabled. -/
def newtonArgsSave : Config := ⟨"newton", 2000, true, 1, 1, 1, 1, 1, 1, 5⟩

/-- A `bfgs` configuration bundle. -/
def bfgsArgs : Config := ⟨"bfgs", 2000, false, 1, 1, 1, 1, 1, 1, 5⟩

/-- A configuration bundle naming an algorithm no branch recognizes. -/
def badArgs : Config := ⟨"simplex", 2000, false, 1, 1, 1, 1, 1, 1, 5⟩

/-- The run `optimize constNegModel newtonArgs 0 warnStepper
neverInterrupt [0] 10` computes to exactly this result: two Newton
iterations, then `OK`. -/
def negNewtonRun : RunResult :=
  ⟨.OK,
    ⟨[["lp__", "theta"]], [],
      [.initialLp (.finite (-4)), .firstCheck (.finite (1 / 10)),
        .iteration 1 (.finite (-2)) (.finite 2),
        .iteration 2 (.finite (-2)) (.finite 0)],
      [], 0, 1, 2, 0⟩,
    [0], [0]⟩

/-- The run `optimize constNegModel newtonArgsSave 0 warnStepper
neverInterrupt [0] 10` computes to exactly this result: like
`negNewtonRun` but with the initial and per-iteration records. -/
def saveNewtonRun : RunResult :=
  ⟨.OK,
    ⟨[["lp__", "theta"]],
      [(0, .finite (-4), [0]), (1, .finite (-2), [0]), (2, .finite (-2), [0])],
      [.initialLp (.finite (-4)), .firstCheck (.finite (1 / 10)),
        .iteration 1 (.finite (-2)) (.finite 2),
        .iteration 2 (.finite (-2)) (.finite 0)],
      [], 0, 1, 2, 0⟩,
    [0], [0]⟩

/-- The run `optimize throwModel newtonArgs 0 warnStepper neverInterrupt
[0] 10` computes to exactly this result: the exception message on the
error sink, `lp = -inf`, a NaN first check, zero Newton steps, `OK`. -/
def throwNewtonRun : RunResult :=
  ⟨.OK,
    ⟨[["lp__", "theta"]], [],
      [.initialLp .negInf, .firstCheck .nan],
      ["boom"], 0, 1, 0, 0⟩,
    [0], [0]⟩

/-- The run `optimize constNegModel bfgsArgs 0 warnStepper neverInterrupt
[0] 10` computes to exactly this result: one advance, one interrupt-hook
call, the stepper's terminal code passed through, and an empty
informational sink. -/
def bfgsRun : RunResult :=
  ⟨.GRADIENT_CONVERGED,
    ⟨[["lp__", "theta"]], [], [], [], 1, 0, 0, 1⟩,
    [0], [1]⟩

/-! ### Helper lemmas about the Newton loop -/

/-- Effect accounting of one Newton loop body: only the informational
sink, the record stream and the step counter change. -/
theorem newtonBody_eff (model : Model) (save : Bool) (st : NewtonSt) :
    (newtonBody model save st).eff.headers = st.eff.headers ∧
    (newtonBody model save st).eff.interrupts = st.eff.interrupts ∧
    (newtonBody model save st).eff.errMsgs = st.eff.errMsgs ∧
    (newtonBody model save st).eff.logProbEvals = st.eff.logProbEvals ∧
    (newtonBody model save st).eff.advanceCalls = st.eff.advanceCalls ∧
    (newtonBody model save st).eff.newtonSteps = st.eff.newtonSteps + 1 ∧
    (newtonBody model save st).params = (model.newtonStep st.params).1 ∧
    (newtonBody model save st).eff.records =
      st.eff.records ++
        (if save then
          [(st.eff.newtonSteps + 1, (model.newtonStep st.params).2,
            (model.newtonStep st.params).1)]
        else []) := by
  cases save <;>
    simp [newtonBody, Effects.pushInfo, Effects.pushRecord]

/-- A completed Newton loop never touches the header stream, the
interrupt counter, the error sink, the evaluation counter or the advance
counter, and its step counter never decreases. -/
theorem newtonLoop_frame (model : Model) (save : Bool) :
    ∀ (fuel : ℕ) (st st' : NewtonSt),
      newtonLoop model save fuel st = some st' →
      st'.eff.headers = st.eff.headers ∧
      st'.eff.interrupts = st.eff.interrupts ∧
      st'.eff.errMsgs = st.eff.errMsgs ∧
      st'.eff.logProbEvals = st.eff.logProbEvals ∧
      st'.eff.advanceCalls = st.eff.advanceCalls ∧
      st.eff.newtonSteps ≤ st'.eff.newtonSteps := by
  intro fuel
  induction fuel with
  | zero =>
      intro st st' h
      by_cases hc : newtonCond st.lp st.lastlp = true
      · simp [newtonLoop, hc] at h
      · simp [newtonLoop, hc] at h
        subst h
        exact ⟨rfl, rfl, rfl, rfl, rfl, le_refl _⟩
  | succ n ih =>
      intro st st' h
      by_cases hc : newtonCond st.lp st.lastlp = true
      · simp only [newtonLoop] at h
        rw [if_pos hc] at h
        obtain ⟨h1, h2, h3, h4, h5, h6⟩ := ih _ _ h
        obtain ⟨b1, b2, b3, b4, b5, b6, -, -⟩ := newtonBody_eff model save st
        exact ⟨h1.trans b1, h2.trans b2, h3.trans b3, h4.trans b4, h5.trans b5,
          by omega⟩
      · simp [newtonLoop, hc] at h
        subst h
        exact ⟨rfl, rfl, rfl, rfl, rfl, le_refl _⟩

/-- When the loop guard fails the loop exits at once with its state
untouched, for any fuel. -/
theorem newtonLoop_stop (model : Model) (save : Bool) (fuel : ℕ)
    (st : NewtonSt) (hc : ¬ newtonCond st.lp st.lastlp = true) :
    newtonLoop model save fuel st = some st := by
  cases fuel <;> simp [newtonLoop, hc]

/-- When the loop guard holds at entry, a completed loop has run at
least one body, so the step counter strictly increases. -/
theorem newtonLoop_progress (model : Model) (save : Bool) (fuel : ℕ)
    (st st' : NewtonSt)
    (h : newtonLoop model save fuel st = some st')
    (hc : newtonCond st.lp st.lastlp = true) :
    st.eff.newtonSteps < st'.eff.newtonSteps := by
  cases fuel with
  | zero => simp [newtonLoop, hc] at h
  | succ n =>
      simp only [newtonLoop] at h
      rw [if_pos hc] at h
      have h6 := (newtonLoop_frame model save n _ _ h).2.2.2.2.2
      have b6 := (newtonBody_eff model save st).2.2.2.2.2.1
      omega

/-- With recording enabled, a completed Newton loop keeps the record
indices equal to `0, 1, ..., newtonSteps`: each body appends exactly the
record indexed by its new step count. -/
theorem newtonLoop_records (model : Model) :
    ∀ (fuel : ℕ) (st st' : NewtonSt),
      newtonLoop model true fuel st = some st' →
      st.eff.records.map Prod.fst = List.range (st.eff.newtonSteps + 1) →
      st'.eff.records.map Prod.fst = List.range (st'.eff.newtonSteps + 1) := by
  intro fuel
  induction fuel with
  | zero =>
      intro st st' h hr
      by_cases hc : newtonCond st.lp st.lastlp = true
      · simp [newtonLoop, hc] at h
      · simp [newtonLoop, hc] at h
        subst h
        exact hr
  | succ n ih =>
      intro st st' h hr
      by_cases hc : newtonCond st.lp st.lastlp = true
      · simp only [newtonLoop] at h
        rw [if_pos hc] at h
        refine ih _ _ h ?_
        obtain ⟨-, -, -, -, -, b6, -, b8⟩ := newtonBody_eff model true st
        rw [b8, b6, List.map_append, hr]
        simp [List.range_succ]
      · simp [newtonLoop, hc] at h
        subst h
        exact hr

/-- If every `newton_step` preserves the length of the parameter vector,
a completed Newton loop preserves it too, for the working vector and for
every recorded iterate. -/
theorem newtonLoop_len (model : Model) (save : Bool) (n : ℕ)
    (hstep : ∀ q, ((model.newtonStep q).1).length = q.length) :
    ∀ (fuel : ℕ) (st st' : NewtonSt),
      newtonLoop model save fuel st = some st' →
      st.params.length = n →
      (∀ rec ∈ st.eff.records, rec.2.2.length = n) →
      st'.params.length = n ∧ ∀ rec ∈ st'.eff.records, rec.2.2.length = n := by
  intro fuel
  induction fuel with
  | zero =>
      intro st st' h hp hr
      by_cases hc : newtonCond st.lp st.lastlp = true
      · simp [newtonLoop, hc] at h
      · simp [newtonLoop, hc] at h
        subst h
        exact ⟨hp, hr⟩
  | succ m ih =>
      intro st st' h hp hr
      by_cases hc : newtonCond st.lp st.lastlp = true
      · simp only [newtonLoop] at h
        rw [if_pos hc] at h
        obtain ⟨-, -, -, -, -, -, b7, b8⟩ := newtonBody_eff model save st
        refine ih _ _ h ?_ ?_
        · rw [b7, hstep, hp]
        · rw [b8]
          intro rec hrec
          rcases List.mem_append.mp hrec with hm | hm
          · exact hr rec hm
          · cases save with
            | false => simp at hm
            | true =>
                simp at hm
                subst hm
                rw [hstep, hp]
      · simp [newtonLoop, hc] at h
        subst h
        exact ⟨hp, hr⟩

/-! ### Helper lemmas about the entry code of the Newton branch -/

/-- The value produced by the guarded initial evaluation is
`initialLpOf`. -/
theorem evalInitial_fst (model : Model) (cv : List ℚ) (eff : Effects) :
    (evalInitial model cv eff).1 = initialLpOf model cv := by
  cases hE : model.logProb cv with
  | error e => simp [evalInitial, initialLpOf, hE]
  | ok vs =>
      obtain ⟨v, s⟩ := vs
      by_cases hs : s = "" <;> simp [evalInitial, initialLpOf, hE, hs]

/-- The guarded initial evaluation touches only the informational sink,
the error sink and the evaluation counter. -/
theorem evalInitial_eff (model : Model) (cv : List ℚ) (eff : Effects) :
    (evalInitial model cv eff).2.headers = eff.headers ∧
    (evalInitial model cv eff).2.records = eff.records ∧
    (evalInitial model cv eff).2.interrupts = eff.interrupts ∧
    (evalInitial model cv eff).2.newtonSteps = eff.newtonSteps ∧
    (evalInitial model cv eff).2.advanceCalls = eff.advanceCalls := by
  cases hE : model.logProb cv with
  | error e => simp [evalInitial, hE, Effects.pushErr]
  | ok vs =>
      obtain ⟨v, s⟩ := vs
      by_cases hs : s = "" <;>
        simp [evalInitial, hE, hs, Effects.pushInfo]

/-- Field accounting for the state entering the Newton `while` loop. -/
theorem newtonEntry_fields (model : Model) (save : Bool) (cv : List ℚ)
    (eff : Effects) :
    (newtonEntry model save cv eff).lp = initialLpOf model cv ∧
    (newtonEntry model save cv eff).lastlp =
      (initialLpOf model cv).mulc (11 / 10) ∧
    (newtonEntry model save cv eff).params = cv ∧
    (newtonEntry model save cv eff).eff.headers = eff.headers ∧
    (newtonEntry model save cv eff).eff.interrupts = eff.interrupts ∧
    (newtonEntry model save cv eff).eff.advanceCalls = eff.advanceCalls ∧
    (newtonEntry model save cv eff).eff.newtonSteps = eff.newtonSteps ∧
    (newtonEntry model save cv eff).eff.records =
      eff.records ++ (if save then [(0, initialLpOf model cv, cv)] else []) := by
  obtain ⟨e1, e2, e3, e4, e5⟩ := evalInitial_eff model cv eff
  have ef := evalInitial_fst model cv eff
  cases save <;>
    simp [newtonEntry, Effects.pushInfo, Effects.pushRecord,
      e1, e2, e3, e4, e5, ef]

/-- When the initial evaluation throws, the entry state of the Newton
loop carries `lp = lastlp = -inf`, the exception message on the error
sink, and the two diagnostic messages with `-inf` and `NaN`. -/
theorem newtonEntry_throw (model : Model) (save : Bool) (cv : List ℚ)
    (eff : Effects) (e : String) (hE : model.logProb cv = .error e) :
    (newtonEntry model save cv eff).lp = .negInf ∧
    (newtonEntry model save cv eff).lastlp = .negInf ∧
    (newtonEntry model save cv eff).eff.errMsgs = eff.errMsgs ++ [e] ∧
    (newtonEntry model save cv eff).eff.infoMsgs =
      eff.infoMsgs ++ [.initialLp .negInf, .firstCheck .nan] := by
  have hm : FP.negInf.mulc (11 / 10) = .negInf := by simp [FP.mulc]
  cases save <;>
    simp [newtonEntry, evalInitial, hE, Effects.pushInfo, Effects.pushRecord,
      Effects.pushErr, hm, FP.sub, FP.div, FP.fabs]

/-! ### Helper lemmas about the Newton branch -/

/-- Frame of a completed Newton branch: it returns `OK`, writes no
headers, never calls the interrupt hook or the stepper, and leaves the
caller's vector untouched. -/
theorem newtonBranch_frame (model : Model) (save : Bool) (cp cv : List ℚ)
    (eff : Effects) (fuel : ℕ) (r : RunResult)
    (h : newtonBranch model save cp cv eff fuel = some r) :
    r.status = .OK ∧
    r.eff.headers = eff.headers ∧
    r.eff.interrupts = eff.interrupts ∧
    r.eff.advanceCalls = eff.advanceCalls ∧
    r.contParams = cp := by
  simp only [newtonBranch] at h
  rcases hL : newtonLoop model save fuel (newtonEntry model save cv eff)
    with - | st
  · rw [hL] at h
    cases h
  · rw [hL] at h
    injection h with h
    subst h
    obtain ⟨f1, f2, -, -, f5, -⟩ := newtonLoop_frame model save fuel _ _ hL
    obtain ⟨-, -, -, n4, n5, n6, -, -⟩ := newtonEntry_fields model save cv eff
    exact ⟨rfl, f1.trans n4, f2.trans n5, f5.trans n6, rfl⟩

/-- A completed Newton branch starting from a zero step counter returns
`OK`, and it has taken at least one Newton step exactly when the loop
guard holds at the very first check, i.e. on
`lastlp = initial lp * 1.1`. -/
theorem newtonBranch_steps (model : Model) (save : Bool) (cp cv : List ℚ)
    (eff : Effects) (fuel : ℕ) (r : RunResult)
    (h : newtonBranch model save cp cv eff fuel = some r)
    (h0 : eff.newtonSteps = 0) :
    r.status = .OK ∧
    (1 ≤ r.eff.newtonSteps ↔
      newtonCond (initialLpOf model cv)
        ((initialLpOf model cv).mulc (11 / 10)) = true) := by
  simp only [newtonBranch] at h
  rcases hL : newtonLoop model save fuel (newtonEntry model save cv eff)
    with - | st
  · rw [hL] at h
    cases h
  · rw [hL] at h
    injection h with h
    subst h
    obtain ⟨n1, n2, -, -, -, -, n7, -⟩ := newtonEntry_fields model save cv eff
    refine ⟨rfl, ?_, ?_⟩
    · intro hs
      by_contra hc
      rw [newtonLoop_stop model save fuel _ (by rw [n1, n2]; exact hc)] at hL
      injection hL with hL
      rw [← hL] at hs
      simp [n7, h0] at hs
    · intro hc
      have hp := newtonLoop_progress model save fuel _ _ hL (by rw [n1, n2]; exact hc)
      simp [n7, h0] at hp
      show 1 ≤ st.eff.newtonSteps
      omega

/-- A completed Newton branch whose initial evaluation throws returns
`OK` immediately: the NaN first check fails, so no Newton step runs, the
exception message is the only error-sink write, and the informational
sink receives exactly the `-inf` initial value and the NaN first
check. -/
theorem newtonBranch_throw (model : Model) (save : Bool) (cp cv : List ℚ)
    (eff : Effects) (fuel : ℕ) (r : RunResult) (e : String)
    (hE : model.logProb cv = .error e)
    (h : newtonBranch model save cp cv eff fuel = some r) :
    r.status = .OK ∧
    r.eff.errMsgs = eff.errMsgs ++ [e] ∧
    r.eff.infoMsgs = eff.infoMsgs ++ [.initialLp .negInf, .firstCheck .nan] ∧
    r.eff.newtonSteps = eff.newtonSteps := by
  obtain ⟨t1, t2, t3, t4⟩ := newtonEntry_throw model save cv eff e hE
  obtain ⟨-, -, -, -, -, -, n7, -⟩ := newtonEntry_fields model save cv eff
  have hcond : ¬ newtonCond (newtonEntry model save cv eff).lp
      (newtonEntry model save cv eff).lastlp = true := by
    rw [t1, t2]
    simp [newtonCond, FP.sub, FP.div, FP.gt]
  simp only [newtonBranch] at h
  rw [newtonLoop_stop model save fuel _ hcond] at h
  injection h with h
  subst h
  exact ⟨rfl, t3, t4, n7⟩

/-- With recording enabled and fresh effect counters, a completed Newton
branch emits records indexed exactly `0, 1, ..., newtonSteps`: the
initial point at index 0 and one record per completed iteration. -/
theorem newtonBranch_records (model : Model) (cp cv : List ℚ)
    (eff : Effects) (fuel : ℕ) (r : RunResult)
    (h : newtonBranch model true cp cv eff fuel = some r)
    (hrec : eff.records = []) (h0 : eff.newtonSteps = 0) :
    r.eff.records.map Prod.fst = List.range (r.eff.newtonSteps + 1) := by
  simp only [newtonBranch] at h
  rcases hL : newtonLoop model true fuel (newtonEntry model true cv eff)
    with - | st
  · rw [hL] at h
    cases h
  · rw [hL] at h
    injection h with h
    subst h
    obtain ⟨-, -, -, -, -, -, n7, n8⟩ := newtonEntry_fields model true cv eff
    refine newtonLoop_records model fuel _ _ hL ?_
    rw [n8, n7, hrec, h0]
    simp [List.range_succ]

/-- If `newton_step` preserves the parameter-vector length, a completed
Newton branch preserves it for the final iterate and every record. -/
theorem newtonBranch_len (model : Model) (save : Bool) (cp cv : List ℚ)
    (eff : Effects) (fuel : ℕ) (r : RunResult)
    (hstep : ∀ q, ((model.newtonStep q).1).length = q.length)
    (h : newtonBranch model save cp cv eff fuel = some r)
    (hrec : ∀ rec ∈ eff.records, rec.2.2.length = cv.length) :
    r.finalIterate.length = cv.length ∧
    ∀ rec ∈ r.eff.records, rec.2.2.length = cv.length := by
  simp only [newtonBranch] at h
  rcases hL : newtonLoop model save fuel (newtonEntry model save cv eff)
    with - | st
  · rw [hL] at h
    cases h
  · rw [hL] at h
    injection h with h
    subst h
    obtain ⟨-, -, n3, -, -, -, -, n8⟩ := newtonEntry_fields model save cv eff
    refine newtonLoop_len model save cv.length hstep fuel _ _ hL (by rw [n3]) ?_
    rw [n8]
    intro rec hrec'
    rcases List.mem_append.mp hrec' with hm | hm
    · exact hrec rec hm
    · cases save with
      | false => simp at hm
      | true =>
          simp at hm
          subst hm
          rfl

/-! ### Helper lemmas about the quasi-Newton driver -/

/-- Effect accounting of one quasi-Newton pass: the header stream, the
error sink and the driver-side counters are untouched; the interrupt and
advance counters each grow by one; any new record is `(k, lp, params)`. -/
theorem qnIterEff_fields (save : Bool) (refresh : ℤ) (k : ℕ) (lp : FP)
    (params : List ℚ) (eff : Effects) :
    (qnIterEff save refresh k lp params eff).headers = eff.headers ∧
    (qnIterEff save refresh k lp params eff).errMsgs = eff.errMsgs ∧
    (qnIterEff save refresh k lp params eff).logProbEvals = eff.logProbEvals ∧
    (qnIterEff save refresh k lp params eff).newtonSteps = eff.newtonSteps ∧
    (qnIterEff save refresh k lp params eff).interrupts = eff.interrupts + 1 ∧
    (qnIterEff save refresh k lp params eff).advanceCalls = eff.advanceCalls + 1 ∧
    (∀ rec ∈ (qnIterEff save refresh k lp params eff).records,
      rec ∈ eff.records ∨ rec = (k, lp, params)) := by
  cases save <;>
    · simp only [qnIterEff, Effects.pushInfo, Effects.pushRecord]
      split_ifs <;> simp_all

/-- Frame of a completed quasi-Newton loop: it never touches the header
stream, the error sink, the evaluation counter or the Newton step
counter, and it keeps the interrupt count equal to the advance count. -/
theorem doBfgs_frame (stepper : QNStepper) (qcfg : QNConfig)
    (interrupt : ℕ → Bool) (save : Bool) (refresh : ℤ) :
    ∀ (fuel k : ℕ) (ps : List ℚ) (eff : Effects) (ts : TerminationStatus)
      (ps' : List ℚ) (eff' : Effects),
      doBfgsOptimize stepper qcfg interrupt save refresh fuel k ps eff =
        some (ts, ps', eff') →
      eff'.headers = eff.headers ∧
      eff'.errMsgs = eff.errMsgs ∧
      eff'.logProbEvals = eff.logProbEvals ∧
      eff'.newtonSteps = eff.newtonSteps ∧
      (eff.interrupts = eff.advanceCalls →
        eff'.interrupts = eff'.advanceCalls) := by
  intro fuel
  induction fuel with
  | zero =>
      intro k ps eff ts ps' eff' h
      simp [doBfgsOptimize] at h
  | succ n ih =>
      intro k ps eff ts ps' eff' h
      simp only [doBfgsOptimize] at h
      obtain ⟨q1, q2, q3, q4, q5, q6, -⟩ :=
        qnIterEff_fields save refresh k (stepper.advance qcfg k).2.2
          (stepper.advance qcfg k).2.1 eff
      by_cases hik : interrupt k = true
      · rw [if_pos hik] at h
        simp only [Option.some.injEq, Prod.mk.injEq] at h
        obtain ⟨-, -, h3⟩ := h
        subst h3
        exact ⟨q1, q2, q3, q4, fun hI => by omega⟩
      · rw [if_neg hik] at h
        rcases hcode : (stepper.advance qcfg k).1 with - | ts0 <;> rw [hcode] at h
        · have := ih (k + 1) (stepper.advance qcfg k).2.1 _ ts ps' eff' h
          obtain ⟨i1, i2, i3, i4, i5⟩ := this
          exact ⟨i1.trans q1, i2.trans q2, i3.trans q3, i4.trans q4,
            fun hI => i5 (by omega)⟩
        · simp only [Option.some.injEq, Prod.mk.injEq] at h
          obtain ⟨-, -, h3⟩ := h
          subst h3
          exact ⟨q1, q2, q3, q4, fun hI => by omega⟩

/-- If every stepper advance returns a vector of length `n`, a completed
quasi-Newton loop returns a final vector of length `n` and every record
it appends holds a vector of length `n`. -/
theorem doBfgs_len (stepper : QNStepper) (qcfg : QNConfig)
    (interrupt : ℕ → Bool) (save : Bool) (refresh : ℤ) (n : ℕ)
    (hadv : ∀ (c : QNConfig) (k : ℕ), ((stepper.advance c k).2.1).length = n) :
    ∀ (fuel k : ℕ) (ps : List ℚ) (eff : Effects) (ts : TerminationStatus)
      (ps' : List ℚ) (eff' : Effects),
      doBfgsOptimize stepper qcfg interrupt save refresh fuel k ps eff =
        some (ts, ps', eff') →
      (∀ rec ∈ eff.records, rec.2.2.length = n) →
      ps'.length = n ∧ ∀ rec ∈ eff'.records, rec.2.2.length = n := by
  intro fuel
  induction fuel with
  | zero =>
      intro k ps eff ts ps' eff' h hrec
      simp [doBfgsOptimize] at h
  | succ m ih =>
      intro k ps eff ts ps' eff' h hrec
      simp only [doBfgsOptimize] at h
      obtain ⟨-, -, -, -, -, -, q7⟩ :=
        qnIterEff_fields save refresh k (stepper.advance qcfg k).2.2
          (stepper.advance qcfg k).2.1 eff
      have hrec' : ∀ rec ∈ (qnIterEff save refresh k (stepper.advance qcfg k).2.2
          (stepper.advance qcfg k).2.1 eff).records, rec.2.2.length = n := by
        intro rec hm
        rcases q7 rec hm with hmem | hnew
        · exact hrec rec hmem
        · rw [hnew]
          exact hadv qcfg k
      by_cases hik : interrupt k = true
      · rw [if_pos hik] at h
        simp only [Option.some.injEq, Prod.mk.injEq] at h
        obtain ⟨-, h2, h3⟩ := h
        subst h2
        subst h3
        exact ⟨hadv qcfg k, hrec'⟩
      · rw [if_neg hik] at h
        rcases hcode : (stepper.advance qcfg k).1 with - | ts0 <;> rw [hcode] at h
        · exact ih (k + 1) (stepper.advance qcfg k).2.1 _ ts ps' eff' h hrec'
        · simp only [Option.some.injEq, Prod.mk.injEq] at h
          obtain ⟨-, h2, h3⟩ := h
          subst h2
          subst h3
          exact ⟨hadv qcfg k, hrec'⟩

/-- Frame of a completed bfgs/lbfgs branch: headers, the error sink, the
evaluation and Newton counters are untouched, interrupt and advance
counts stay equal, and the caller's vector comes back unchanged. -/
theorem qnBranch_frame (stepper : QNStepper) (qcfg : QNConfig)
    (interrupt : ℕ → Bool) (save : Bool) (refresh : ℤ) (cp cv : List ℚ)
    (eff : Effects) (fuel : ℕ) (r : RunResult)
    (h : qnBranch stepper qcfg interrupt save refresh cp cv eff fuel = some r) :
    r.eff.headers = eff.headers ∧
    r.eff.errMsgs = eff.errMsgs ∧
    r.eff.logProbEvals = eff.logProbEvals ∧
    r.eff.newtonSteps = eff.newtonSteps ∧
    (eff.interrupts = eff.advanceCalls →
      r.eff.interrupts = r.eff.advanceCalls) ∧
    r.contParams = cp := by
  simp only [qnBranch] at h
  rcases hd : doBfgsOptimize stepper qcfg interrupt save refresh fuel 1 cv eff
    with - | ⟨ts, ps, eff'⟩
  · rw [hd] at h
    cases h
  · rw [hd] at h
    injection h with h
    subst h
    obtain ⟨d1, d2, d3, d4, d5⟩ :=
      doBfgs_frame stepper qcfg interrupt save refresh fuel 1 cv eff ts ps eff' hd
    exact ⟨d1, d2, d3, d4, d5, rfl⟩

/-- Length preservation for a completed bfgs/lbfgs branch. -/
theorem qnBranch_len (stepper : QNStepper) (qcfg : QNConfig)
    (interrupt : ℕ → Bool) (save : Bool) (refresh : ℤ) (cp cv : List ℚ)
    (eff : Effects) (fuel : ℕ) (r : RunResult) (n : ℕ)
    (hadv : ∀ (c : QNConfig) (k : ℕ), ((stepper.advance c k).2.1).length = n)
    (h : qnBranch stepper qcfg interrupt save refresh cp cv eff fuel = some r)
    (hrec : ∀ rec ∈ eff.records, rec.2.2.length = n) :
    r.finalIterate.length = n ∧
    ∀ rec ∈ r.eff.records, rec.2.2.length = n := by
  simp only [qnBranch] at h
  rcases hd : doBfgsOptimize stepper qcfg interrupt save refresh fuel 1 cv eff
    with - | ⟨ts, ps, eff'⟩
  · rw [hd] at h
    cases h
  · rw [hd] at h
    injection h with h
    subst h
    exact doBfgs_len stepper qcfg interrupt save refresh n hadv fuel 1 cv eff
      ts ps eff' hd hrec

/-- The first Newton check succeeds on every finite strictly negative
initial log density: the guard value is exactly `1/10`. -/
theorem newtonCond_neg_finite (x : ℚ) (hx : x < 0) :
    newtonCond (.finite x) ((FP.finite x).mulc (11 / 10)) = true := by
  have hx0 : x ≠ 0 := ne_of_lt hx
  have habs : |x| = -x := abs_of_neg hx
  have hne : -x ≠ 0 := neg_ne_zero.mpr hx0
  have hval : (x - x * (11 / 10)) / (-x) = 1 / 10 := by
    field_simp
    ring
  simp only [newtonCond, FP.sub, FP.mulc, FP.fabs, FP.div, FP.gt, habs,
    if_neg hne, hval]
  norm_num

/-! ### The claims -/

/-- Claim C1, amended.  For every completed run with `algorithm=newton`,
the driver returns `OK` once the relative-improvement test
`(lp - lastlp) / |lp| > 1e-8` fails, where for the very first check
`lastlp` is set to `lp * 1.1`; at least one Newton step runs exactly
when that first check succeeds, which it does whenever the initial log
density is finite and strictly negative (not, as the claim states,
regardless of the initial log density: for non-negative, infinite or NaN
initial values the first check already fails and zero steps run). -/
theorem optimize_newton_stopping_rule
    (model : Model) (cfg : Config) (refresh : ℤ) (stepper : QNStepper)
    (interrupt : ℕ → Bool) (p : List ℚ) (fuel : ℕ) (r : RunResult)
    (halg : cfg.algorithm = "newton")
    (h : optimize model cfg refresh stepper interrupt p fuel = some r) :
    r.status = .OK ∧
    (1 ≤ r.eff.newtonSteps ↔
      newtonCond (initialLpOf model p)
        ((initialLpOf model p).mulc (11 / 10)) = true) ∧
    (∀ x : ℚ, initialLpOf model p = .finite x → x < 0 →
      1 ≤ r.eff.newtonSteps) := by
  simp only [optimize] at h
  rw [if_pos halg] at h
  have hb := newtonBranch_steps model cfg.saveIterations p p _ fuel r h rfl
  refine ⟨hb.1, hb.2, ?_⟩
  intro x hx hneg
  refine hb.2.mpr ?_
  rw [hx]
  exact newtonCond_neg_finite x hneg

/-- Claim C1, counterexample to the claim as stated: a completed
`newton` run whose initial log density is the positive finite value `1`
performs zero Newton steps and returns `OK` immediately, so the
`lastlp = lp * 1.1` initialization does not force a first iteration
"regardless of the initial log density". -/
theorem optimize_newton_zero_steps_counterexample :
    (optimize constPosModel newtonArgs 0 warnStepper neverInterrupt
        [0] 10).map (fun r => (r.status, r.eff.newtonSteps)) =
      some (.OK, 0) := by
  norm_num [optimize, newtonBranch, newtonEntry, evalInitial, newtonLoop,
    newtonBody, newtonCond, FP.sub, FP.mulc, FP.fabs, FP.div, FP.gt,
    Effects.pushInfo, Effects.pushRecord, Effects.pushErr, constPosModel,
    newtonArgs, warnStepper, neverInterrupt]

/-- Claim C1, witness: on the model with initial log density `-4` the
completed `newton` run returns `OK` and takes at least one step. -/
theorem optimize_newton_stopping_rule_witness :
    negNewtonRun.status = .OK ∧ 1 ≤ negNewtonRun.eff.newtonSteps :=
  ⟨(optimize_newton_stopping_rule constNegModel newtonArgs 0 warnStepper
      neverInterrupt [0] 10 negNewtonRun rfl (by
        norm_num [optimize, newtonBranch, newtonEntry, evalInitial, newtonLoop,
          newtonBody, newtonCond, FP.sub, FP.mulc, FP.fabs, FP.div, FP.gt,
          Effects.pushInfo, Effects.pushRecord, Effects.pushErr, constNegModel,
          newtonArgs, warnStepper, neverInterrupt, negNewtonRun])).1,
    (optimize_newton_stopping_rule constNegModel newtonArgs 0 warnStepper
      neverInterrupt [0] 10 negNewtonRun rfl (by
        norm_num [optimize, newtonBranch, newtonEntry, evalInitial, newtonLoop,
          newtonBody, newtonCond, FP.sub, FP.mulc, FP.fabs, FP.div, FP.gt,
          Effects.pushInfo, Effects.pushRecord, Effects.pushErr, constNegModel,
          newtonArgs, warnStepper, neverInterrupt, negNewtonRun])).2.2
      (-4) rfl (by norm_num)⟩

/-- Claim C2, amended.  For every completed `newton` run whose initial
log-density evaluation throws, the driver writes the failure's message
to the error sink and substitutes `lp = -inf` instead of crashing; the
first relative-improvement check then evaluates
`(-inf - (-inf * 1.1)) / |-inf|` to NaN, `NaN > 1e-8` is false, so the
Newton loop performs zero steps (not, as the claim states, at least one
additional step) and the run returns `OK` immediately. -/
theorem optimize_newton_initial_failure
    (model : Model) (cfg : Config) (refresh : ℤ) (stepper : QNStepper)
    (interrupt : ℕ → Bool) (p : List ℚ) (fuel : ℕ) (r : RunResult)
    (e : String)
    (halg : cfg.algorithm = "newton")
    (hE : model.logProb p = .error e)
    (h : optimize model cfg refresh stepper interrupt p fuel = some r) :
    r.status = .OK ∧
    r.eff.errMsgs = [e] ∧
    r.eff.infoMsgs = [.initialLp .negInf, .firstCheck .nan] ∧
    r.eff.newtonSteps = 0 := by
  simp only [optimize] at h
  rw [if_pos halg] at h
  obtain ⟨t1, t2, t3, t4⟩ :=
    newtonBranch_throw model cfg.saveIterations p p _ fuel r e hE h
  simp only [List.nil_append] at t2 t3
  exact ⟨t1, t2, t3, t4⟩

/-- Claim C2, counterexample to the claim as stated: a completed
`newton` run whose initial evaluation throws logs the message, returns
`OK`, and performs zero Newton steps — the loop terminates immediately
rather than performing at least one additional step. -/
theorem optimize_newton_throw_counterexample :
    (optimize throwModel newtonArgs 0 warnStepper neverInterrupt
        [0] 10).map (fun r => (r.status, r.eff.errMsgs, r.eff.newtonSteps)) =
      some (.OK, ["boom"], 0) := by
  norm_num [optimize, newtonBranch, newtonEntry, evalInitial, newtonLoop,
    newtonBody, newtonCond, FP.sub, FP.mulc, FP.fabs, FP.div, FP.gt,
    Effects.pushInfo, Effects.pushRecord, Effects.pushErr, throwModel,
    newtonArgs, warnStepper, neverInterrupt]

/-- Claim C2, witness: the throwing model's completed `newton` run shows
the logged message, the `-inf`/NaN diagnostics and the zero-step `OK`
return. -/
theorem optimize_newton_initial_failure_witness :
    throwNewtonRun.status = .OK ∧
    throwNewtonRun.eff.errMsgs = ["boom"] ∧
    throwNewtonRun.eff.infoMsgs = [.initialLp .negInf, .firstCheck .nan] ∧
    throwNewtonRun.eff.newtonSteps = 0 :=
  optimize_newton_initial_failure throwModel newtonArgs 0 warnStepper
    neverInterrupt [0] 10 throwNewtonRun "boom" rfl rfl (by
      norm_num [optimize, newtonBranch, newtonEntry, evalInitial, newtonLoop,
        newtonBody, newtonCond, FP.sub, FP.mulc, FP.fabs, FP.div, FP.gt,
        Effects.pushInfo, Effects.pushRecord, Effects.pushErr, throwModel,
        newtonArgs, warnStepper, neverInterrupt, throwNewtonRun])

/-- Claim C3.  For every algorithm name other than `newton`, `bfgs` or
`lbfgs`, `optimize` returns `USAGE_ERROR` having performed zero model
log-density evaluations and produced no side effect beyond the schema
header: no records, no informational or error messages, no interrupt
calls, no stepper advances, and the caller's vector untouched. -/
theorem optimize_usage
    (model : Model) (cfg : Config) (refresh : ℤ) (stepper : QNStepper)
    (interrupt : ℕ → Bool) (p : List ℚ) (fuel : ℕ)
    (h1 : ¬ cfg.algorithm = "newton")
    (h2 : ¬ cfg.algorithm = "bfgs")
    (h3 : ¬ cfg.algorithm = "lbfgs") :
    optimize model cfg refresh stepper interrupt p fuel =
      some ⟨.USAGE_ERROR,
        ⟨["lp__" :: model.constrainedParamNames], [], [], [], 0, 0, 0, 0⟩,
        p, p⟩ := by
  simp only [optimize]
  rw [if_neg h1, if_neg h2, if_neg h3]

/-- Claim C3, witness: the unrecognized algorithm name `simplex`. -/
theorem optimize_usage_witness :
    optimize constNegModel badArgs 0 warnStepper neverInterrupt [0] 10 =
      some ⟨.USAGE_ERROR,
        ⟨["lp__" :: constNegModel.constrainedParamNames], [], [], [], 0, 0, 0, 0⟩,
        [0], [0]⟩ :=
  optimize_usage constNegModel badArgs 0 warnStepper neverInterrupt [0] 10
    (by simp [badArgs]) (by simp [badArgs]) (by simp [badArgs])

/-- Claim C4, code evidence.  On a `bfgs` run whose stepper leaves the
non-empty text "line search warning" in its construction-time message
buffer, the completed run returns the stepper's terminal code with an
EMPTY informational sink: the flush `if (msg.str().size())
info(msg.str());` at optimize.hpp line 149 (and 190) sits after the
`return do_bfgs_optimize(...)` statement, so the buffered text is never
forwarded before the status code is returned, contrary to the claim. -/
theorem optimize_qn_buffer_never_forwarded :
    warnStepper.ctorMsg = "line search warning" ∧
    (optimize constNegModel bfgsArgs 0 warnStepper neverInterrupt
        [0] 10).map (fun r => (r.status, r.eff.infoMsgs)) =
      some (.GRADIENT_CONVERGED, []) := by
  constructor
  · rfl
  · simp [optimize, qnBranch, doBfgsOptimize, qnIterEff, Effects.pushInfo,
      Effects.pushRecord, constNegModel, bfgsArgs, warnStepper, neverInterrupt]

/-- Claim C5.  Every completed run emits exactly one schema header to
the output sink: the synthetic name `lp__` followed by the model's
constrained parameter names, whatever the algorithm and whatever
`save_iterations`. -/
theorem optimize_header_once
    (model : Model) (cfg : Config) (refresh : ℤ) (stepper : QNStepper)
    (interrupt : ℕ → Bool) (p : List ℚ) (fuel : ℕ) (r : RunResult)
    (h : optimize model cfg refresh stepper interrupt p fuel = some r) :
    r.eff.headers = [["lp__"] ++ model.constrainedParamNames] := by
  simp only [optimize] at h
  by_cases h1 : cfg.algorithm = "newton"
  · rw [if_pos h1] at h
    exact (newtonBranch_frame model cfg.saveIterations p p _ fuel r h).2.1
  · rw [if_neg h1] at h
    by_cases h2 : cfg.algorithm = "bfgs"
    · rw [if_pos h2] at h
      exact (qnBranch_frame _ _ _ _ _ _ _ _ _ _ h).1
    · rw [if_neg h2] at h
      by_cases h3 : cfg.algorithm = "lbfgs"
      · rw [if_pos h3] at h
        exact (qnBranch_frame _ _ _ _ _ _ _ _ _ _ h).1
      · rw [if_neg h3] at h
        injection h with h
        subst h
        rfl

/-- Claim C5, witness: the header of the completed `newton` run on the
one-parameter model. -/
theorem optimize_header_once_witness :
    negNewtonRun.eff.headers = [["lp__"] ++ constNegModel.constrainedParamNames] :=
  optimize_header_once constNegModel newtonArgs 0 warnStepper neverInterrupt
    [0] 10 negNewtonRun (by
      norm_num [optimize, newtonBranch, newtonEntry, evalInitial, newtonLoop,
        newtonBody, newtonCond, FP.sub, FP.mulc, FP.fabs, FP.div, FP.gt,
        Effects.pushInfo, Effects.pushRecord, Effects.pushErr, constNegModel,
        newtonArgs, warnStepper, neverInterrupt, negNewtonRun])

/-- Claim C6.  For every completed `newton` run with
`save_iterations=true`, a record for the initial point is emitted before
any step and one record per completed iteration after it, so the record
indices are exactly `0, 1, ..., newtonSteps`: strictly increasing,
starting at 0, with no gaps. -/
theorem optimize_newton_record_indices
    (model : Model) (cfg : Config) (refresh : ℤ) (stepper : QNStepper)
    (interrupt : ℕ → Bool) (p : List ℚ) (fuel : ℕ) (r : RunResult)
    (halg : cfg.algorithm = "newton")
    (hsave : cfg.saveIterations = true)
    (h : optimize model cfg refresh stepper interrupt p fuel = some r) :
    r.eff.records.map Prod.fst = List.range (r.eff.newtonSteps + 1) := by
  simp only [optimize] at h
  rw [if_pos halg, hsave] at h
  exact newtonBranch_records model p p _ fuel r h rfl rfl

/-- Claim C6, witness: the recording `newton` run emits records indexed
`[0, 1, 2]` for its two iterations. -/
theorem optimize_newton_record_indices_witness :
    saveNewtonRun.eff.records.map Prod.fst =
      List.range (saveNewtonRun.eff.newtonSteps + 1) :=
  optimize_newton_record_indices constNegModel newtonArgsSave 0 warnStepper
    neverInterrupt [0] 10 saveNewtonRun rfl rfl (by
      norm_num [optimize, newtonBranch, newtonEntry, evalInitial, newtonLoop,
        newtonBody, newtonCond, FP.sub, FP.mulc, FP.fabs, FP.div, FP.gt,
        Effects.pushInfo, Effects.pushRecord, Effects.pushErr, constNegModel,
        newtonArgsSave, warnStepper, neverInterrupt, saveNewtonRun])

/-- Claim C7.  In every completed run, the Newton branch never invokes
the caller's interrupt hook, while the quasi-Newton (bfgs/lbfgs) driver
invokes it exactly once per stepper advance. -/
theorem optimize_interrupt_discipline
    (model : Model) (cfg : Config) (refresh : ℤ) (stepper : QNStepper)
    (interrupt : ℕ → Bool) (p : List ℚ) (fuel : ℕ) (r : RunResult)
    (h : optimize model cfg refresh stepper interrupt p fuel = some r) :
    (cfg.algorithm = "newton" → r.eff.interrupts = 0) ∧
    (cfg.algorithm = "bfgs" ∨ cfg.algorithm = "lbfgs" →
      r.eff.interrupts = r.eff.advanceCalls) := by
  simp only [optimize] at h
  by_cases h1 : cfg.algorithm = "newton"
  · rw [if_pos h1] at h
    have hf := newtonBranch_frame model cfg.saveIterations p p _ fuel r h
    refine ⟨fun _ => hf.2.2.1, fun hq => ?_⟩
    rcases hq with hb | hb <;> rw [h1] at hb <;> exact absurd hb (by simp)
  · rw [if_neg h1] at h
    by_cases h2 : cfg.algorithm = "bfgs"
    · rw [if_pos h2] at h
      have hf := qnBranch_frame _ _ _ _ _ _ _ _ _ _ h
      exact ⟨fun hn => absurd hn h1, fun _ => hf.2.2.2.2.1 rfl⟩
    · rw [if_neg h2] at h
      by_cases h3 : cfg.algorithm = "lbfgs"
      · rw [if_pos h3] at h
        have hf := qnBranch_frame _ _ _ _ _ _ _ _ _ _ h
        exact ⟨fun hn => absurd hn h1, fun _ => hf.2.2.2.2.1 rfl⟩
      · rw [if_neg h3] at h
        injection h with h
        subst h
        exact ⟨fun _ => rfl, fun _ => rfl⟩

/-- Claim C7, witness: on the completed `bfgs` run the interrupt count
equals the advance count (both 1). -/
theorem optimize_interrupt_discipline_witness :
    bfgsRun.eff.interrupts = bfgsRun.eff.advanceCalls :=
  (optimize_interrupt_discipline constNegModel bfgsArgs 0 warnStepper
      neverInterrupt [0] 10 bfgsRun (by
        simp [optimize, qnBranch, doBfgsOptimize, qnIterEff,
          Effects.pushInfo, Effects.pushRecord, constNegModel, bfgsArgs,
          warnStepper, neverInterrupt, bfgsRun])).2 (Or.inl rfl)

/-- Claim C8.  Under the step contract that `newton_step` preserves the
parameter-vector length and that every stepper advance returns a vector
of the initial point's length, every completed run keeps that length for
the working vector at return and for every recorded iterate. -/
theorem optimize_param_length
    (model : Model) (cfg : Config) (refresh : ℤ) (stepper : QNStepper)
    (interrupt : ℕ → Bool) (p : List ℚ) (fuel : ℕ) (r : RunResult)
    (hstep : ∀ q, ((model.newtonStep q).1).length = q.length)
    (hadv : ∀ (c : QNConfig) (k : ℕ), ((stepper.advance c k).2.1).length = p.length)
    (h : optimize model cfg refresh stepper interrupt p fuel = some r) :
    r.finalIterate.length = p.length ∧
    ∀ rec ∈ r.eff.records, rec.2.2.length = p.length := by
  simp only [optimize] at h
  by_cases h1 : cfg.algorithm = "newton"
  · rw [if_pos h1] at h
    exact newtonBranch_len model cfg.saveIterations p p _ fuel r hstep h
      (by intro rec hm; simp at hm)
  · rw [if_neg h1] at h
    by_cases h2 : cfg.algorithm = "bfgs"
    · rw [if_pos h2] at h
      exact qnBranch_len _ _ _ _ _ _ _ _ _ _ p.length hadv h
        (by intro rec hm; simp at hm)
    · rw [if_neg h2] at h
      by_cases h3 : cfg.algorithm = "lbfgs"
      · rw [if_pos h3] at h
        exact qnBranch_len _ _ _ _ _ _ _ _ _ _ p.length hadv h
          (by intro rec hm; simp at hm)
      · rw [if_neg h3] at h
        injection h with h
        subst h
        exact ⟨rfl, by intro rec hm; simp at hm⟩

/-- Claim C8, witness: on the recording `newton` run the final iterate
keeps length 1, and so does the recorded initial iterate. -/
theorem optimize_param_length_witness :
    saveNewtonRun.finalIterate.length = ([(0 : ℚ)] : List ℚ).length ∧
    ((0 : ℕ), FP.finite (-4), ([(0 : ℚ)] : List ℚ)).2.2.length =
      ([(0 : ℚ)] : List ℚ).length :=
  ⟨(optimize_param_length constNegModel newtonArgsSave 0 warnStepper
      neverInterrupt [0] 10 saveNewtonRun (fun q => rfl) (fun c k => rfl) (by
        norm_num [optimize, newtonBranch, newtonEntry, evalInitial, newtonLoop,
          newtonBody, newtonCond, FP.sub, FP.mulc, FP.fabs, FP.div, FP.gt,
          Effects.pushInfo, Effects.pushRecord, Effects.pushErr, constNegModel,
          newtonArgsSave, warnStepper, neverInterrupt, saveNewtonRun])).1,
   (optimize_param_length constNegModel newtonArgsSave 0 warnStepper
      neverInterrupt [0] 10 saveNewtonRun (fun q => rfl) (fun c k => rfl) (by
        norm_num [optimize, newtonBranch, newtonEntry, evalInitial, newtonLoop,
          newtonBody, newtonCond, FP.sub, FP.mulc, FP.fabs, FP.div, FP.gt,
          Effects.pushInfo, Effects.pushRecord, Effects.pushErr, constNegModel,
          newtonArgsSave, warnStepper, neverInterrupt, saveNewtonRun])).2
     (0, FP.finite (-4), [0]) (by simp [saveNewtonRun])⟩

/-- Claim C9.  `optimize` never writes back to the caller's input
vector: it copies the initial point into a local working vector at
entry, so after every completed run the caller's vector holds exactly
the values it held before the call. -/
theorem optimize_contparams_unchanged
    (model : Model) (cfg : Config) (refresh : ℤ) (stepper : QNStepper)
    (interrupt : ℕ → Bool) (p : List ℚ) (fuel : ℕ) (r : RunResult)
    (h : optimize model cfg refresh stepper interrupt p fuel = some r) :
    r.contParams = p := by
  simp only [optimize] at h
  by_cases h1 : cfg.algorithm = "newton"
  · rw [if_pos h1] at h
    exact (newtonBranch_frame model cfg.saveIterations p p _ fuel r h).2.2.2.2
  · rw [if_neg h1] at h
    by_cases h2 : cfg.algorithm = "bfgs"
    · rw [if_pos h2] at h
      exact (qnBranch_frame _ _ _ _ _ _ _ _ _ _ h).2.2.2.2.2
    · rw [if_neg h2] at h
      by_cases h3 : cfg.algorithm = "lbfgs"
      · rw [if_pos h3] at h
        exact (qnBranch_frame _ _ _ _ _ _ _ _ _ _ h).2.2.2.2.2
      · rw [if_neg h3] at h
        injection h with h
        subst h
        rfl

/-- Claim C9, witness: after the completed `bfgs` run, whose final
iterate is `[1]`, the caller's vector still holds `[0]`. -/
theorem optimize_contparams_unchanged_witness :
    bfgsRun.contParams = [(0 : ℚ)] :=
  optimize_contparams_unchanged constNegModel bfgsArgs 0 warnStepper
    neverInterrupt [0] 10 bfgsRun (by
      simp [optimize, qnBranch, doBfgsOptimize, qnIterEff,
        Effects.pushInfo, Effects.pushRecord, constNegModel, bfgsArgs,
        warnStepper, neverInterrupt, bfgsRun])

/-- Claim C10.  Two `newton` runs identical except for the `iter`
configuration option and the `refresh` parameter produce identical
results: the same emissions to every sink and the same status.  The
Newton branch reads neither value. -/
theorem optimize_newton_ignores_iter_refresh
    (model : Model) (iterA iterB : ℤ) (s : Bool) (a t1 t2 t3 t4 t5 : ℚ)
    (hsz : ℤ) (refreshA refreshB : ℤ) (stepper : QNStepper)
    (interrupt : ℕ → Bool) (p : List ℚ) (fuel : ℕ) :
    optimize model ⟨"newton", iterA, s, a, t1, t2, t3, t4, t5, hsz⟩ refreshA
        stepper interrupt p fuel =
      optimize model ⟨"newton", iterB, s, a, t1, t2, t3, t4, t5, hsz⟩ refreshB
        stepper interrupt p fuel := by
  simp [optimize]

end Stan
